import Mathlib

/-!
Verification of the partial-structural-equality matcher of qa-kit
(`tests/utils/test_helpers.py`): the functions `_path_matches_any` and
`_assert_partial`, shallowly embedded in Lean, together with the parts of
Python's `fnmatch` glob matching that `_path_matches_any` calls into.
-/

namespace QaKit

/-- JSON-like values, the data model of the matcher (spec §3): objects are
insertion-ordered string-keyed mappings (modelled as association lists,
iterated in order, as Python dicts are), sequences are lists, scalars are
null, booleans, integers and strings. Float scalars never occur in the
repository's expected payloads and are left out of the model; Python's
equality between the numeric kinds that do occur (`bool` as an `int`
subclass) is kept, see `pyEq`. -/
inductive Value where
  | vnull : Value
  | vbool : Bool → Value
  | vint : Int → Value
  | vstr : String → Value
  | list : List Value → Value
  | dict : List (String × Value) → Value
deriving Repr

/-- The failure taxonomy of `_assert_partial` (spec §7), each carrying the
path its assertion message reports. -/
inductive Failure where
  | typeMismatch : String → Failure
  | missingKey : String → Failure
  | lengthTooShort : String → Failure
  | valueMismatch : String → Failure
deriving Repr, DecidableEq

/-- The path a failure reports. -/
def Failure.path : Failure → String
  | .typeMismatch p => p
  | .missingKey p => p
  | .lengthTooShort p => p
  | .valueMismatch p => p

/-- Python `s.startswith(pre)`: the character sequence of `pre` is a prefix
of that of `s`. -/
def pyStartsWith (s pre : String) : Bool :=
  pre.toList.isPrefixOf s.toList

/-- Child path for descending into object key `k` from `path`:
`f"{path}.{k}" if path else k` (empty string is falsy in Python). -/
def childPath (path k : String) : String :=
  if path = "" then k else path ++ "." ++ k

/-- Child path for descending into sequence index `i`: `f"{path}[{i}]"`. -/
def idxPath (path : String) (i : Nat) : String :=
  path ++ "[" ++ toString i ++ "]"

/-- Python `k in actual` / `actual[k]` on a dict, as association-list
lookup (keys of a Python dict are unique, so first match is the match). -/
def lookup (k : String) : List (String × Value) → Option Value
  | [] => none
  | (k', v) :: rest => if k' == k then some v else lookup k rest

/-! ### Python fnmatch

`fnmatch.fnmatch(name, pat)` on POSIX (where `os.path.normcase` is the
identity) matches `name` against the glob `pat` in full: `*` matches any
character run, `?` any one character, `[...]` a character class (leading
`!` negates; a `]` straight after the `[` or the `!` is a member; a `[`
with no closing `]` is a literal `[`; `-` between two members is a range),
every other character is literal. -/

/-- Scan a class body up to the closing `]`: the content before it and the
rest of the pattern after it, or `none` when the bracket never closes. -/
def scanClose : List Char → Option (List Char × List Char)
  | [] => none
  | ']' :: rest => some ([], rest)
  | c :: rest =>
    match scanClose rest with
    | some (s, r) => some (c :: s, r)
    | none => none

/-- Split off a character-class body after a `[`, mirroring how
`fnmatch.translate` scans: a leading `!` and then a leading `]` belong to
the body, the body then runs to the next `]`. -/
def splitClass (ps : List Char) : Option (List Char × List Char) :=
  match ps with
  | '!' :: ']' :: rest =>
    match scanClose rest with
    | some (s, r) => some ('!' :: ']' :: s, r)
    | none => none
  | '!' :: rest =>
    match scanClose rest with
    | some (s, r) => some ('!' :: s, r)
    | none => none
  | ']' :: rest =>
    match scanClose rest with
    | some (s, r) => some (']' :: s, r)
    | none => none
  | _ => scanClose ps

/-- Membership of a character in a class body: `a-b` spans the code-point
range, a `-` without both ends is a literal member. -/
def charInClass (c : Char) : List Char → Bool
  | lo :: '-' :: hi :: rest => (lo ≤ c && c ≤ hi) || charInClass c rest
  | d :: rest => c == d || charInClass c rest
  | [] => false

/-- One character against a scanned class body, honouring `!` negation. -/
def classMatches (c : Char) (stuff : List Char) : Bool :=
  match stuff with
  | '!' :: rest => !(charInClass c rest)
  | rest => charInClass c rest

/-- The glob match itself, over character lists, anchored at both ends as
`fnmatch.translate`'s `(?s:...)\Z` regex is. -/
def globMatch (name pat : List Char) : Bool :=
  match pat with
  | [] => name.isEmpty
  | '*' :: ps =>
    globMatch name ps ||
      (match name with
       | [] => false
       | _ :: ns => globMatch ns ('*' :: ps))
  | '?' :: ps =>
    (match name with
     | [] => false
     | _ :: ns => globMatch ns ps)
  | '[' :: ps =>
    (match splitClass ps with
     | some (stuff, rest) =>
       (match name with
        | [] => false
        | c :: ns => classMatches c stuff && globMatch ns rest)
     | none =>
       (match name with
        | [] => false
        | c :: ns => c == '[' && globMatch ns ps))
  | p :: ps =>
    (match name with
     | [] => false
     | c :: ns => c == p && globMatch ns ps)
termination_by (name.length, pat.length)
decreasing_by all_goals (simp_all [Prod.lex_iff]; try omega)

/-- `fnmatch.fnmatch(name, pat)` on POSIX. -/
def fnmatch (name pat : String) : Bool :=
  globMatch name.toList pat.toList

/-- `_path_matches_any(path, patterns, use_wildcard)` of
`tests/utils/test_helpers.py` with the pattern list already a list (the
`patterns or []` normalisation is `pathMatchesAnyOpt` below): the loop
`if use_wildcard and fnmatch(...): return True / elif path == pat or
path.startswith(pat + "."): return True` over the patterns in order. -/
def pathMatchesAny (path : String) (patterns : List String) (useWildcard : Bool) : Bool :=
  match patterns with
  | [] => false
  | pat :: rest =>
    if useWildcard && fnmatch path pat then true
    else if path == pat || pyStartsWith path (pat ++ ".") then true
    else pathMatchesAny path rest useWildcard

/-- Python `expected == actual` as the scalar branch of `_assert_partial`
evaluates it: `expected` there is never a dict or a list, and on the
scalars of the model Python equality is exact on null/strings but equates
a `bool` with its integer value (`True == 1`), `bool` being an `int`
subclass; a scalar never equals a dict or a list. -/
def pyEq : Value → Value → Bool
  | .vnull, .vnull => true
  | .vbool b, .vbool c => b == c
  | .vbool b, .vint n => (if b then (1 : Int) else 0) == n
  | .vint n, .vbool b => n == (if b then (1 : Int) else 0)
  | .vint m, .vint n => m == n
  | .vstr s, .vstr t => s == t
  | _, _ => false

/-- A scalar of the data model: neither an object nor a sequence, so
`_assert_partial` handles it in its final `else` branch. -/
def isScalar : Value → Bool
  | .list _ => false
  | .dict _ => false
  | _ => true

mutual

/-- `_assert_partial(expected, actual, path, ignore_keys, use_wildcard)`
with `ignore_keys` already a list (the `ignore_keys or []` normalisation
is `assertPartialOpt` below). `.ok ()` is a passing assertion, `.error f`
the first failing assertion. -/
def assertPartial (expected actual : Value) (path : String)
    (ignoreKeys : List String) (useWildcard : Bool) : Except Failure Unit :=
  match expected with
  | .dict es =>
    match actual with
    | .dict as => assertEntries es as path ignoreKeys useWildcard
    | _ => .error (.typeMismatch path)
  | .list xs =>
    match actual with
    | .list ys =>
      if ys.length < xs.length then .error (.lengthTooShort path)
      else assertElems xs ys 0 path ignoreKeys useWildcard
    | _ => .error (.typeMismatch path)
  | e =>
    if pathMatchesAny path ignoreKeys useWildcard then .ok ()
    else if pyEq e actual then .ok ()
    else .error (.valueMismatch path)

/-- The `for k, v in expected.items()` loop of the dict branch: skip an
excluded child path, fail on a missing key, otherwise recurse; `as` is the
full actual dict throughout. -/
def assertEntries (es as : List (String × Value)) (path : String)
    (ignoreKeys : List String) (useWildcard : Bool) : Except Failure Unit :=
  match es with
  | [] => .ok ()
  | (k, v) :: rest =>
    let newPath := childPath path k
    if pathMatchesAny newPath ignoreKeys useWildcard then
      assertEntries rest as path ignoreKeys useWildcard
    else
      match lookup k as with
      | none => .error (.missingKey newPath)
      | some av =>
        match assertPartial v av newPath ignoreKeys useWildcard with
        | .ok _ => assertEntries rest as path ignoreKeys useWildcard
        | .error f => .error f

/-- The `for i, v in enumerate(expected)` loop of the list branch,
comparing index `i` of expected against index `i` of actual; the caller
has checked `len(actual) >= len(expected)`, so the expected list runs out
first and the `ys = []` fallback is never reached from `assertPartial`. -/
def assertElems (xs ys : List Value) (i : Nat) (path : String)
    (ignoreKeys : List String) (useWildcard : Bool) : Except Failure Unit :=
  match xs, ys with
  | [], _ => .ok ()
  | _ :: _, [] => .ok ()
  | x :: xr, y :: yr =>
    match assertPartial x y (idxPath path i) ignoreKeys useWildcard with
    | .ok _ => assertElems xr yr (i + 1) path ignoreKeys useWildcard
    | .error f => .error f

end

/-- Python `x or []` on an optional list argument: `None` and the empty
list are falsy and give `[]`. -/
def pyOrEmpty (x : Option (List String)) : List String :=
  match x with
  | none => []
  | some l => if l.isEmpty then [] else l

/-- `_path_matches_any` as called with its `patterns` parameter possibly
`None`: the loop runs over `patterns or []`. -/
def pathMatchesAnyOpt (path : String) (patterns : Option (List String))
    (useWildcard : Bool) : Bool :=
  pathMatchesAny path (pyOrEmpty patterns) useWildcard

/-- `_assert_partial` as called with `ignore_keys` possibly `None` (its
default): the body first runs `ignore_keys = ignore_keys or []`. -/
def assertPartialOpt (expected actual : Value) (path : String)
    (ignoreKeys : Option (List String)) (useWildcard : Bool) : Except Failure Unit :=
  assertPartial expected actual path (pyOrEmpty ignoreKeys) useWildcard

/-- Keys of an association list are pairwise distinct, as the keys of a
Python dict always are. -/
def keysNodup : List (String × Value) → Bool
  | [] => true
  | (k, _) :: rest => (lookup k rest).isNone && keysNodup rest

mutual

/-- A value all of whose objects have pairwise-distinct keys: every value
decoded from JSON into Python dicts/lists/scalars is of this shape. -/
def wellFormed : Value → Bool
  | .list xs => wfElems xs
  | .dict es => keysNodup es && wfEntries es
  | _ => true

/-- `wellFormed` on every element of a sequence. -/
def wfElems : List Value → Bool
  | [] => true
  | x :: xr => wellFormed x && wfElems xr

/-- `wellFormed` on every value of an object. -/
def wfEntries : List (String × Value) → Bool
  | [] => true
  | (_, v) :: rest => wellFormed v && wfEntries rest

end

mutual

/-- Every violation `_assert_partial` could report, collected in
depth-first, expected-order traversal instead of stopping at the first: at
a type or length mismatch the subtree contributes that failure (for a
length shortfall, followed by whatever the index-wise comparison of the
common prefix finds). `assertPartial` reports exactly the head of this
list (see `assertPartial_eq_head_violations`). -/
def violations (expected actual : Value) (path : String)
    (ignoreKeys : List String) (useWildcard : Bool) : List Failure :=
  match expected with
  | .dict es =>
    match actual with
    | .dict as => violationsEntries es as path ignoreKeys useWildcard
    | _ => [.typeMismatch path]
  | .list xs =>
    match actual with
    | .list ys =>
      (if ys.length < xs.length then [.lengthTooShort path] else []) ++
        violationsElems xs ys 0 path ignoreKeys useWildcard
    | _ => [.typeMismatch path]
  | e =>
    if pathMatchesAny path ignoreKeys useWildcard then []
    else if pyEq e actual then []
    else [.valueMismatch path]

/-- All violations of the dict branch, keys in expected's order. -/
def violationsEntries (es as : List (String × Value)) (path : String)
    (ignoreKeys : List String) (useWildcard : Bool) : List Failure :=
  match es with
  | [] => []
  | (k, v) :: rest =>
    let newPath := childPath path k
    if pathMatchesAny newPath ignoreKeys useWildcard then
      violationsEntries rest as path ignoreKeys useWildcard
    else
      match lookup k as with
      | none => .missingKey newPath :: violationsEntries rest as path ignoreKeys useWildcard
      | some av =>
        violations v av newPath ignoreKeys useWildcard ++
          violationsEntries rest as path ignoreKeys useWildcard

/-- All violations of the list branch, indices in increasing order. -/
def violationsElems (xs ys : List Value) (i : Nat) (path : String)
    (ignoreKeys : List String) (useWildcard : Bool) : List Failure :=
  match xs, ys with
  | [], _ => []
  | _ :: _, [] => []
  | x :: xr, y :: yr =>
    violations x y (idxPath path i) ignoreKeys useWildcard ++
      violationsElems xr yr (i + 1) path ignoreKeys useWildcard

end

/-! ## Theorems -/

/-- Structural induction on `Value` with membership hypotheses for the
values inside sequences and objects. -/
theorem Value.inductOn (motive : Value → Prop)
    (hnull : motive .vnull) (hbool : ∀ b, motive (.vbool b))
    (hint : ∀ n, motive (.vint n)) (hstr : ∀ s, motive (.vstr s))
    (hlist : ∀ xs, (∀ x ∈ xs, motive x) → motive (.list xs))
    (hdict : ∀ es, (∀ kv ∈ es, motive kv.2) → motive (.dict es)) :
    ∀ v, motive v
  | .vnull => hnull
  | .vbool b => hbool b
  | .vint n => hint n
  | .vstr s => hstr s
  | .list xs => hlist xs fun x hx =>
      Value.inductOn motive hnull hbool hint hstr hlist hdict x
  | .dict es => hdict es fun kv hkv =>
      Value.inductOn motive hnull hbool hint hstr hlist hdict kv.2
termination_by v => sizeOf v
decreasing_by
  · have := List.sizeOf_lt_of_mem hx
    simp only [Value.list.sizeOf_spec]
    omega
  · have h1 := List.sizeOf_lt_of_mem hkv
    have h2 : sizeOf kv.2 < sizeOf kv := by
      obtain ⟨a, b⟩ := kv
      simp only [Prod.mk.sizeOf_spec]
      omega
    simp only [Value.dict.sizeOf_spec]
    omega

/-- A key bound in an association list is found by `lookup`. -/
theorem lookup_isSome_of_mem {es : List (String × Value)} {k : String} {v : Value}
    (hm : (k, v) ∈ es) : (lookup k es).isSome = true := by
  induction es with
  | nil => simp at hm
  | cons kv rest ih =>
    obtain ⟨k1, v1⟩ := kv
    rcases List.mem_cons.mp hm with h | h
    · obtain ⟨rfl, rfl⟩ := Prod.mk.injEq .. ▸ h
      simp [lookup]
    · by_cases hk : (k1 == k) = true <;> simp [lookup, hk, ih h]

/-- On an association list with pairwise-distinct keys, `lookup` of a
bound key returns the value it is bound to. -/
theorem lookup_eq_of_mem_of_nodup {es : List (String × Value)} {k : String} {v : Value}
    (hnd : keysNodup es = true) (hm : (k, v) ∈ es) : lookup k es = some v := by
  induction es with
  | nil => simp at hm
  | cons kv rest ih =>
    obtain ⟨k1, v1⟩ := kv
    rw [keysNodup, Bool.and_eq_true] at hnd
    rcases List.mem_cons.mp hm with h | h
    · obtain ⟨rfl, rfl⟩ := Prod.mk.injEq .. ▸ h
      simp [lookup]
    · have hne : (k1 == k) = false := by
        by_contra hcon
        have hk1 : k1 = k := by
          cases hbe : (k1 == k)
          · exact absurd hbe hcon
          · exact beq_iff_eq.mp hbe
        subst hk1
        have := lookup_isSome_of_mem h
        simp [Option.isNone_iff_eq_none] at hnd
        simp [hnd.1] at this
      simp [lookup, hne, ih hnd.2 h]

/-- Every value of an object whose entries pass `wfEntries` is
well-formed. -/
theorem wellFormed_of_mem_entries {es : List (String × Value)}
    (h : wfEntries es = true) {kv : String × Value} (hm : kv ∈ es) :
    wellFormed kv.2 = true := by
  induction es with
  | nil => simp at hm
  | cons e rest ih =>
    obtain ⟨k1, v1⟩ := e
    rw [wfEntries, Bool.and_eq_true] at h
    rcases List.mem_cons.mp hm with he | he
    · subst he
      exact h.1
    · exact ih h.2 he

/-- Every element of a sequence that passes `wfElems` is well-formed. -/
theorem wellFormed_of_mem_elems {xs : List Value}
    (h : wfElems xs = true) {x : Value} (hm : x ∈ xs) :
    wellFormed x = true := by
  induction xs with
  | nil => simp at hm
  | cons y rest ih =>
    rw [wfElems, Bool.and_eq_true] at h
    rcases List.mem_cons.mp hm with he | he
    · subst he
      exact h.1
    · exact ih h.2 he

/-- The dict loop passes when every expected binding is found in actual
with a value that matches itself. -/
theorem assertEntries_ok_of_lookup (es as : List (String × Value)) (path : String)
    (ig : List String) (wc : Bool)
    (h : ∀ kv ∈ es, lookup kv.1 as = some kv.2 ∧
      ∀ q, assertPartial kv.2 kv.2 q ig wc = .ok ()) :
    assertEntries es as path ig wc = .ok () := by
  induction es with
  | nil => rw [assertEntries]
  | cons kv rest ih =>
    obtain ⟨k, v⟩ := kv
    have hh := h (k, v) (List.mem_cons_self ..)
    have hrest := ih fun kv hkv => h kv (List.mem_cons_of_mem _ hkv)
    rw [assertEntries]
    by_cases hex : pathMatchesAny (childPath path k) ig wc = true
    · simp only [hex, if_true]
      exact hrest
    · simp only [Bool.not_eq_true] at hex
      simp only [hex, Bool.false_eq_true, if_false, hh.1, hh.2 (childPath path k)]
      exact hrest

/-- The list loop passes when the two lists are the same list of values
each of which matches itself. -/
theorem assertElems_ok_of_refl (xs : List Value) (ig : List String) (wc : Bool)
    (h : ∀ x ∈ xs, ∀ q, assertPartial x x q ig wc = .ok ()) :
    ∀ (i : Nat) (path : String), assertElems xs xs i path ig wc = .ok () := by
  induction xs with
  | nil =>
    intro i path
    rw [assertElems]
  | cons x xr ih =>
    intro i path
    rw [assertElems]
    simp only [h x (List.mem_cons_self ..) (idxPath path i)]
    exact ih (fun y hy => h y (List.mem_cons_of_mem _ hy)) (i + 1) path

/-- Reflexivity of the matcher: a well-formed value matches itself at any
path, under any exclusions and either matching mode. -/
theorem assertPartial_self (ig : List String) (wc : Bool) :
    ∀ v, wellFormed v = true → ∀ path, assertPartial v v path ig wc = .ok () := by
  intro v
  induction v using Value.inductOn with
  | hnull => intro _ path; simp [assertPartial, pyEq]
  | hbool b => intro _ path; simp [assertPartial, pyEq]
  | hint n => intro _ path; simp [assertPartial, pyEq]
  | hstr s => intro _ path; simp [assertPartial, pyEq]
  | hlist xs ihm =>
    intro hwf path
    rw [assertPartial]
    simp only [lt_irrefl, if_false]
    rw [wellFormed] at hwf
    exact assertElems_ok_of_refl xs ig wc
      (fun x hx q => ihm x hx (wellFormed_of_mem_elems hwf hx) q) 0 path
  | hdict es ihm =>
    intro hwf path
    rw [assertPartial]
    rw [wellFormed, Bool.and_eq_true] at hwf
    refine assertEntries_ok_of_lookup es es path ig wc fun kv hkv => ?_
    obtain ⟨k, v⟩ := kv
    exact ⟨lookup_eq_of_mem_of_nodup hwf.1 hkv,
      fun q => ihm (k, v) hkv (wellFormed_of_mem_entries hwf.2 hkv) q⟩

/-- The dict loop reports exactly the head of its collected violation
list, provided each value of expected does. -/
theorem assertEntries_eq_head (es as : List (String × Value)) (path : String)
    (ig : List String) (wc : Bool)
    (ih : ∀ kv ∈ es, ∀ (a : Value) (q : String),
      assertPartial kv.2 a q ig wc =
        match violations kv.2 a q ig wc with
        | [] => .ok ()
        | f :: _ => .error f) :
    assertEntries es as path ig wc =
      match violationsEntries es as path ig wc with
      | [] => .ok ()
      | f :: _ => .error f := by
  induction es with
  | nil => rw [assertEntries, violationsEntries]
  | cons kv rest ihes =>
    obtain ⟨k, v⟩ := kv
    have hrest := ihes fun kv hkv => ih kv (List.mem_cons_of_mem _ hkv)
    rw [assertEntries, violationsEntries]
    by_cases hex : pathMatchesAny (childPath path k) ig wc = true
    · simp only [hex, if_true]
      exact hrest
    · simp only [Bool.not_eq_true] at hex
      simp only [hex, Bool.false_eq_true, if_false]
      cases hlk : lookup k as with
      | none => rfl
      | some av =>
        have hv := ih (k, v) (List.mem_cons_self ..) av (childPath path k)
        cases hviol : violations v av (childPath path k) ig wc with
        | nil =>
          rw [hviol] at hv
          simp only at hv
          simp only [hv, hviol, List.nil_append]
          exact hrest
        | cons f fs =>
          rw [hviol] at hv
          simp only at hv
          simp only [hv, hviol, List.cons_append]

/-- The list loop reports exactly the head of its collected violation
list, provided each element of expected does. -/
theorem assertElems_eq_head (xs : List Value) (ig : List String) (wc : Bool)
    (ih : ∀ x ∈ xs, ∀ (a : Value) (q : String),
      assertPartial x a q ig wc =
        match violations x a q ig wc with
        | [] => .ok ()
        | f :: _ => .error f) :
    ∀ (ys : List Value) (i : Nat) (path : String),
      assertElems xs ys i path ig wc =
        match violationsElems xs ys i path ig wc with
        | [] => .ok ()
        | f :: _ => .error f := by
  induction xs with
  | nil =>
    intro ys i path
    rw [assertElems, violationsElems]
  | cons x xr ihxs =>
    intro ys i path
    cases ys with
    | nil => rw [assertElems, violationsElems]
    | cons y yr =>
      rw [assertElems, violationsElems]
      have hx := ih x (List.mem_cons_self ..) y (idxPath path i)
      cases hviol : violations x y (idxPath path i) ig wc with
      | nil =>
        rw [hviol] at hx
        simp only at hx
        simp only [hx, hviol, List.nil_append]
        exact ihxs (fun z hz a q => ih z (List.mem_cons_of_mem _ hz) a q) yr (i + 1) path
      | cons f fs =>
        rw [hviol] at hx
        simp only at hx
        simp only [hx, hviol, List.cons_append]

/-- A failure of the dict loop is reported at the loop's own path or
deeper: its path extends `path`. -/
theorem assertEntries_error_extends (as : List (String × Value))
    (ig : List String) (wc : Bool) (es : List (String × Value))
    (ih : ∀ kv ∈ es, ∀ (a : Value) (q : String) (f : Failure),
      assertPartial kv.2 a q ig wc = .error f → ∃ t, f.path = q ++ t) :
    ∀ (path : String) (f : Failure),
      assertEntries es as path ig wc = .error f → ∃ t, f.path = path ++ t := by
  induction es with
  | nil =>
    intro path f h
    rw [assertEntries] at h
    cases h
  | cons kv rest ihes =>
    obtain ⟨k, v⟩ := kv
    intro path f h
    rw [assertEntries] at h
    by_cases hex : pathMatchesAny (childPath path k) ig wc = true
    · simp only [hex, if_true] at h
      exact ihes (fun kv hkv => ih kv (List.mem_cons_of_mem _ hkv)) path f h
    · simp only [Bool.not_eq_true] at hex
      simp only [hex, Bool.false_eq_true, if_false] at h
      cases hlk : lookup k as with
      | none =>
        rw [hlk] at h
        simp only [Except.error.injEq] at h
        subst h
        by_cases hp : path = ""
        · subst hp
          exact ⟨k, by simp [Failure.path, childPath]⟩
        · exact ⟨"." ++ k, by simp [Failure.path, childPath, hp, String.append_assoc]⟩
      | some av =>
        rw [hlk] at h
        simp only at h
        cases hv : assertPartial v av (childPath path k) ig wc with
        | ok u =>
          rw [hv] at h
          simp only at h
          exact ihes (fun kv hkv => ih kv (List.mem_cons_of_mem _ hkv)) path f h
        | error f0 =>
          rw [hv] at h
          simp only [Except.error.injEq] at h
          subst h
          obtain ⟨t0, ht0⟩ := ih (k, v) (List.mem_cons_self ..) av (childPath path k) f0 hv
          by_cases hp : path = ""
          · subst hp
            exact ⟨k ++ t0, by simpa [childPath] using ht0⟩
          · refine ⟨"." ++ (k ++ t0), ?_⟩
            rw [ht0]
            simp [childPath, hp, String.append_assoc]

/-- A failure of the list loop is reported strictly below the loop's own
path: its path extends `path ++ "["`. -/
theorem assertElems_error_extends (ig : List String) (wc : Bool) (xs : List Value)
    (ih : ∀ x ∈ xs, ∀ (a : Value) (q : String) (f : Failure),
      assertPartial x a q ig wc = .error f → ∃ t, f.path = q ++ t) :
    ∀ (ys : List Value) (i : Nat) (path : String) (f : Failure),
      assertElems xs ys i path ig wc = .error f →
        ∃ t, f.path = (path ++ "[") ++ t := by
  induction xs with
  | nil =>
    intro ys i path f h
    rw [assertElems] at h
    cases h
  | cons x xr ihxs =>
    intro ys i path f h
    cases ys with
    | nil =>
      rw [assertElems] at h
      cases h
    | cons y yr =>
      rw [assertElems] at h
      cases hx : assertPartial x y (idxPath path i) ig wc with
      | ok u =>
        rw [hx] at h
        simp only at h
        exact ihxs (fun z hz => ih z (List.mem_cons_of_mem _ hz)) yr (i + 1) path f h
      | error f0 =>
        rw [hx] at h
        simp only [Except.error.injEq] at h
        subst h
        obtain ⟨t0, ht0⟩ := ih x (List.mem_cons_self ..) y (idxPath path i) f0 hx
        refine ⟨toString i ++ ("]" ++ t0), ?_⟩
        rw [ht0]
        simp [idxPath, String.append_assoc]

/-- A failure of the matcher is reported at the current path or deeper:
its path extends the path of the call. -/
theorem assertPartial_error_extends (ig : List String) (wc : Bool) :
    ∀ (e a : Value) (q : String) (f : Failure),
      assertPartial e a q ig wc = .error f → ∃ t, f.path = q ++ t := by
  intro e
  induction e using Value.inductOn with
  | hnull =>
    intro a q f h
    simp only [assertPartial] at h
    split at h
    · cases h
    · split at h
      · cases h
      · simp only [Except.error.injEq] at h
        subst h
        exact ⟨"", by simp [Failure.path]⟩
  | hbool b =>
    intro a q f h
    simp only [assertPartial] at h
    split at h
    · cases h
    · split at h
      · cases h
      · simp only [Except.error.injEq] at h
        subst h
        exact ⟨"", by simp [Failure.path]⟩
  | hint n =>
    intro a q f h
    simp only [assertPartial] at h
    split at h
    · cases h
    · split at h
      · cases h
      · simp only [Except.error.injEq] at h
        subst h
        exact ⟨"", by simp [Failure.path]⟩
  | hstr s =>
    intro a q f h
    simp only [assertPartial] at h
    split at h
    · cases h
    · split at h
      · cases h
      · simp only [Except.error.injEq] at h
        subst h
        exact ⟨"", by simp [Failure.path]⟩
  | hlist xs ihm =>
    intro a q f h
    cases a with
    | list ys =>
      rw [assertPartial] at h
      by_cases hlen : ys.length < xs.length
      · simp only [hlen, if_true, Except.error.injEq] at h
        subst h
        exact ⟨"", by simp [Failure.path]⟩
      · simp only [hlen, Bool.false_eq_true, if_false] at h
        obtain ⟨t, ht⟩ := assertElems_error_extends ig wc xs
          (fun x hx a1 q1 f1 => ihm x hx a1 q1 f1) ys 0 q f h
        exact ⟨"[" ++ t, by rw [ht, String.append_assoc]⟩
    | vnull =>
      simp only [assertPartial, Except.error.injEq] at h
      subst h
      exact ⟨"", by simp [Failure.path]⟩
    | vbool b =>
      simp only [assertPartial, Except.error.injEq] at h
      subst h
      exact ⟨"", by simp [Failure.path]⟩
    | vint n =>
      simp only [assertPartial, Except.error.injEq] at h
      subst h
      exact ⟨"", by simp [Failure.path]⟩
    | vstr s =>
      simp only [assertPartial, Except.error.injEq] at h
      subst h
      exact ⟨"", by simp [Failure.path]⟩
    | dict as =>
      simp only [assertPartial, Except.error.injEq] at h
      subst h
      exact ⟨"", by simp [Failure.path]⟩
  | hdict es ihm =>
    intro a q f h
    cases a with
    | dict as =>
      rw [assertPartial] at h
      exact assertEntries_error_extends as ig wc es
        (fun kv hkv a1 q1 f1 => ihm kv hkv a1 q1 f1) q f h
    | vnull =>
      simp only [assertPartial, Except.error.injEq] at h
      subst h
      exact ⟨"", by simp [Failure.path]⟩
    | vbool b =>
      simp only [assertPartial, Except.error.injEq] at h
      subst h
      exact ⟨"", by simp [Failure.path]⟩
    | vint n =>
      simp only [assertPartial, Except.error.injEq] at h
      subst h
      exact ⟨"", by simp [Failure.path]⟩
    | vstr s =>
      simp only [assertPartial, Except.error.injEq] at h
      subst h
      exact ⟨"", by simp [Failure.path]⟩
    | list xs =>
      simp only [assertPartial, Except.error.injEq] at h
      subst h
      exact ⟨"", by simp [Failure.path]⟩

/-- Appending extra elements to actual beyond expected's length does not
change the list loop's outcome. -/
theorem assertElems_append_extra (ig : List String) (wc : Bool) :
    ∀ (xs ys extra : List Value) (i : Nat) (path : String),
      xs.length ≤ ys.length →
      assertElems xs (ys ++ extra) i path ig wc =
        assertElems xs ys i path ig wc := by
  intro xs
  induction xs with
  | nil =>
    intro ys extra i path hlen
    rw [assertElems, assertElems]
  | cons x xr ihxs =>
    intro ys extra i path hlen
    cases ys with
    | nil => simp at hlen
    | cons y yr =>
      rw [List.cons_append, assertElems, assertElems]
      cases hx : assertPartial x y (idxPath path i) ig wc with
      | ok u =>
        simp only
        exact ihxs yr extra (i + 1) path (by simpa using hlen)
      | error f0 => simp only

/-- The list loop succeeds iff the element comparisons at every shared
index succeed (actual at least as long as expected). -/
theorem assertElems_ok_iff_pointwise (ig : List String) (wc : Bool) :
    ∀ (xs ys : List Value) (i : Nat) (path : String),
      xs.length ≤ ys.length →
      (assertElems xs ys i path ig wc = .ok () ↔
        ∀ (j : Nat) (h1 : j < xs.length) (h2 : j < ys.length),
          assertPartial (xs.get ⟨j, h1⟩) (ys.get ⟨j, h2⟩)
            (idxPath path (i + j)) ig wc = .ok ()) := by
  intro xs
  induction xs with
  | nil =>
    intro ys i path hlen
    rw [assertElems]
    simp
  | cons x xr ihxs =>
    intro ys i path hlen
    cases ys with
    | nil => simp at hlen
    | cons y yr =>
      rw [assertElems]
      cases hx : assertPartial x y (idxPath path i) ig wc with
      | error f0 =>
        simp only
        constructor
        · intro hcon
          cases hcon
        · intro hall
          have h0 := hall 0 (Nat.succ_pos _) (Nat.succ_pos _)
          simp only [List.get] at h0
          rw [Nat.add_zero] at h0
          rw [hx] at h0
          cases h0
      | ok u =>
        simp only
        rw [ihxs yr (i + 1) path (by simpa using hlen)]
        constructor
        · intro hall j h1 h2
          cases j with
          | zero =>
            simp only [List.get]
            rw [Nat.add_zero, hx]
          | succ j0 =>
            simp only [List.get]
            have := hall j0 (Nat.lt_of_succ_lt_succ h1) (Nat.lt_of_succ_lt_succ h2)
            rwa [show i + 1 + j0 = i + (j0 + 1) by omega] at this
        · intro hall j h1 h2
          have := hall (j + 1) (Nat.succ_lt_succ h1) (Nat.succ_lt_succ h2)
          simp only [List.get] at this
          rwa [show i + (j + 1) = i + 1 + j by omega] at this

/-- C1 counterexample: the claimed example does not succeed.
`_assert_partial({"a": {"b": 1}}, {"a": "not-an-object"}, "", ["a.b"], False)`
type-checks `actual["a"]` against `dict` before the exclusion `"a.b"` is
ever consulted, and fails with a type mismatch at `"a"`. -/
theorem c1_claimed_example_fails :
    assertPartial (.dict [("a", .dict [("b", .vint 1)])])
        (.dict [("a", .vstr "not-an-object")]) "" ["a.b"] false =
      .error (.typeMismatch "a") := by
  simp +decide [assertPartial, assertEntries, pathMatchesAny, childPath,
    lookup, pyStartsWith]

/-- C1 amended: exclusion is consulted where the code checks it — at
scalar leaves (before inspecting `actual` at all) and at dict-child paths
(before the key lookup) — but a container's type check happens before
exclusions of strictly deeper paths, so excluding `"a"` makes the example
succeed while excluding `"a.b"` leaves it failing with `TypeMismatch` at
`"a"`. -/
theorem c1_exclusion_at_leaf_and_child_only :
    (∀ (e a : Value) (path : String) (ig : List String) (wc : Bool),
      isScalar e = true → pathMatchesAny path ig wc = true →
      assertPartial e a path ig wc = .ok ()) ∧
    assertPartial (.dict [("a", .dict [("b", .vint 1)])])
        (.dict [("a", .vstr "not-an-object")]) "" ["a"] false = .ok () ∧
    assertPartial (.dict [("a", .dict [("b", .vint 1)])])
        (.dict [("a", .vstr "not-an-object")]) "" ["a.b"] false =
      .error (.typeMismatch "a") := by
  refine ⟨?_, ?_, ?_⟩
  · intro e a path ig wc hs hm
    cases e <;> simp_all [assertPartial, isScalar]
  · simp +decide [assertPartial, assertEntries, pathMatchesAny, childPath,
      lookup, pyStartsWith]
  · simp +decide [assertPartial, assertEntries, pathMatchesAny, childPath,
      lookup, pyStartsWith]

/-- C2 counterexample: with wildcard mode on, the pattern `"data"` matches
the path `"data.email"` although the glob match fails — the literal
prefix rule still applies in wildcard mode. -/
theorem c2_literal_rule_fires_in_wildcard_mode :
    pathMatchesAny "data.email" ["data"] true = true ∧
    fnmatch "data.email" "data" = false := by
  constructor
  · simp +decide [pathMatchesAny, pyStartsWith]
  · simp +decide [fnmatch, globMatch]

/-- C2 amended: with wildcard mode enabled a pattern matches a path iff
the glob match succeeds OR the literal-equality / prefix-plus-dot rule
matches (the `elif` of `_path_matches_any` still runs when the glob match
fails); first match over the pattern list wins. -/
theorem c2_wildcard_is_glob_or_literal (path : String) (pats : List String) :
    pathMatchesAny path pats true =
      pats.any fun pat =>
        fnmatch path pat || path == pat || pyStartsWith path (pat ++ ".") := by
  induction pats with
  | nil => simp [pathMatchesAny]
  | cons pat rest ih =>
    rw [pathMatchesAny, List.any_cons, ih]
    cases h1 : fnmatch path pat <;>
      cases h2 : (path == pat || pyStartsWith path (pat ++ ".")) <;>
        simp [h1, h2]

/-- C3 counterexample: with `wildcard=True` the call does NOT succeed —
`fnmatch` reads `[*]` in `"items[*].id"` as a character class containing
only `*`, which does not match the `0` of `"items[0].id"`, so the
exclusion never applies and the comparison fails with a value mismatch at
`"items[0].id"`. -/
theorem c3_wildcard_call_fails_too :
    assertPartial (.dict [("items", .list [.dict [("id", .vint 1)]])])
        (.dict [("items", .list [.dict [("id", .vint 2)]])])
        "" ["items[*].id"] true =
      .error (.valueMismatch "items[0].id") := by
  simp +decide [assertPartial, assertEntries, assertElems, pathMatchesAny,
    childPath, idxPath, lookup, pyEq, pyStartsWith, fnmatch, globMatch,
    splitClass, scanClose, classMatches, charInClass]

/-- C3 amended: the call fails with `ValueMismatch` at `"items[0].id"` in
BOTH modes. In glob syntax `[*]` is a character class holding only the
literal `*` (so `"items*.id"` would match the pattern, `"items[0].id"`
does not), hence `"items[*].id"` excludes nothing at index 0. -/
theorem c3_both_modes_value_mismatch :
    fnmatch "items[0].id" "items[*].id" = false ∧
    fnmatch "items*.id" "items[*].id" = true ∧
    assertPartial (.dict [("items", .list [.dict [("id", .vint 1)]])])
        (.dict [("items", .list [.dict [("id", .vint 2)]])])
        "" ["items[*].id"] true =
      .error (.valueMismatch "items[0].id") ∧
    assertPartial (.dict [("items", .list [.dict [("id", .vint 1)]])])
        (.dict [("items", .list [.dict [("id", .vint 2)]])])
        "" ["items[*].id"] false =
      .error (.valueMismatch "items[0].id") := by
  refine ⟨?_, ?_, ?_, ?_⟩ <;>
    simp +decide [assertPartial, assertEntries, assertElems, pathMatchesAny,
      childPath, idxPath, lookup, pyEq, pyStartsWith, fnmatch, globMatch,
      splitClass, scanClose, classMatches, charInClass]

/-- C4 counterexample: two scalars of different types CAN match — Python's
`bool` is an `int` subclass, so `True == 1` and
`_assert_partial(True, 1, "", [], False)` succeeds. -/
theorem c4_bool_int_coercion_matches :
    assertPartial (.vbool true) (.vint 1) "" [] false = .ok () := by
  simp +decide [assertPartial, pathMatchesAny, pyEq]

/-- C4 amended: at a non-excluded path a scalar comparison fails with
`ValueMismatch` unless `expected == actual` under PYTHON equality, which
is exact on null and strings and never equates numbers with strings
(`matches(1, "1", [], False)` fails; `matches(1, 1, [], False)` and
`matches(None, None, [], False)` succeed) but does equate a boolean with
its integer value (`True == 1`). -/
theorem c4_scalar_equality_is_python_eq :
    assertPartial (.vint 1) (.vstr "1") "" [] false =
      .error (.valueMismatch "") ∧
    assertPartial (.vint 1) (.vint 1) "" [] false = .ok () ∧
    assertPartial .vnull .vnull "" [] false = .ok () ∧
    pyEq (.vbool true) (.vint 1) = true ∧
    (∀ (e a : Value) (path : String), isScalar e = true →
      assertPartial e a path [] false =
        if pyEq e a then .ok () else .error (.valueMismatch path)) := by
  refine ⟨?_, ?_, ?_, ?_, ?_⟩
  · simp +decide [assertPartial, pathMatchesAny, pyEq]
  · simp +decide [assertPartial, pathMatchesAny, pyEq]
  · simp +decide [assertPartial, pathMatchesAny, pyEq]
  · simp +decide [pyEq]
  · intro e a path hs
    cases e <;> simp_all [assertPartial, isScalar, pathMatchesAny]

/-- C4 witness for the quantified conjunct: instantiated at
`expected = 2`, `actual = 3`, path `"p"`. -/
theorem c4_scalar_equality_is_python_eq_witness :
    assertPartial (.vint 2) (.vint 3) "p" [] false =
      if pyEq (.vint 2) (.vint 3) then .ok () else .error (.valueMismatch "p") :=
  c4_scalar_equality_is_python_eq.2.2.2.2 (.vint 2) (.vint 3) "p" (by simp [isScalar])

/-- C5: in non-wildcard mode a single pattern matches a path iff the path
equals the pattern or starts with the pattern followed by `"."`; in
particular `"data"` matches `"data.email"` but not `"database"`, and
`"items"` does not match `"items[0]"`. -/
theorem c5_literal_match_is_eq_or_dot_extension :
    (∀ path pat : String,
      pathMatchesAny path [pat] false = true ↔
        path = pat ∨ (pat ++ ".").toList <+: path.toList) ∧
    pathMatchesAny "data.email" ["data"] false = true ∧
    pathMatchesAny "database" ["data"] false = false ∧
    pathMatchesAny "items[0]" ["items"] false = false := by
  refine ⟨?_, ?_, ?_, ?_⟩
  · intro path pat
    simp [pathMatchesAny, pyStartsWith, List.isPrefixOf_iff_prefix]
  · simp +decide [pathMatchesAny, pyStartsWith]
  · simp +decide [pathMatchesAny, pyStartsWith]
  · simp +decide [pathMatchesAny, pyStartsWith]

/-- C6: sequence comparison — the comparison fails with `LengthTooShort`
at the current path iff actual is shorter than expected; with actual at
least as long, elements are compared index-wise at the same indices, and
elements of actual beyond expected's length are never inspected and never
cause failure. -/
theorem c6_sequence_prefix_semantics :
    (∀ (xs ys : List Value) (path : String) (ig : List String) (wc : Bool),
      assertPartial (.list xs) (.list ys) path ig wc =
          .error (.lengthTooShort path) ↔ ys.length < xs.length) ∧
    (∀ (xs ys extra : List Value) (path : String) (ig : List String) (wc : Bool),
      xs.length ≤ ys.length →
      assertPartial (.list xs) (.list (ys ++ extra)) path ig wc =
        assertPartial (.list xs) (.list ys) path ig wc) ∧
    (∀ (xs ys : List Value) (path : String) (ig : List String) (wc : Bool),
      xs.length ≤ ys.length →
      (assertPartial (.list xs) (.list ys) path ig wc = .ok () ↔
        ∀ (j : Nat) (h1 : j < xs.length) (h2 : j < ys.length),
          assertPartial (xs.get ⟨j, h1⟩) (ys.get ⟨j, h2⟩)
            (idxPath path j) ig wc = .ok ())) := by
  refine ⟨?_, ?_, ?_⟩
  · intro xs ys path ig wc
    constructor
    · intro h
      by_contra hlen
      rw [assertPartial] at h
      simp only [hlen, Bool.false_eq_true, if_false] at h
      obtain ⟨t, ht⟩ := assertElems_error_extends ig wc xs
        (fun x hx => assertPartial_error_extends ig wc x) ys 0 path _ h
      simp only [Failure.path] at ht
      have hlen2 := congrArg String.length ht
      simp only [String.length_append] at hlen2
      have : ("[" : String).length = 1 := rfl
      omega
    · intro hlen
      rw [assertPartial]
      simp only [hlen, if_true]
  · intro xs ys extra path ig wc hlen
    rw [assertPartial, assertPartial]
    have hge : ¬ (ys ++ extra).length < xs.length := by
      simp only [List.length_append]
      omega
    have hge2 : ¬ ys.length < xs.length := by omega
    simp only [hge, hge2, Bool.false_eq_true, if_false]
    exact assertElems_append_extra ig wc xs ys extra 0 path hlen
  · intro xs ys path ig wc hlen
    rw [assertPartial]
    have hge : ¬ ys.length < xs.length := by omega
    simp only [hge, Bool.false_eq_true, if_false]
    rw [assertElems_ok_iff_pointwise ig wc xs ys 0 path hlen]
    constructor
    · intro hall j h1 h2
      have := hall j h1 h2
      rwa [Nat.zero_add] at this
    · intro hall j h1 h2
      have := hall j h1 h2
      rwa [Nat.zero_add]

/-- C6 witness: extra elements of actual are ignored at a concrete input,
and a shorter actual is exactly a `LengthTooShort` at the current path. -/
theorem c6_sequence_prefix_semantics_witness :
    assertPartial (.list [.vint 1]) (.list ([.vint 1] ++ [.vnull])) "p" [] false =
        assertPartial (.list [.vint 1]) (.list [.vint 1]) "p" [] false ∧
    (assertPartial (.list [.vint 1, .vint 2]) (.list [.vint 1]) "p" [] false =
        .error (.lengthTooShort "p") ↔ ([.vint 1] : List Value).length <
          ([.vint 1, .vint 2] : List Value).length) :=
  ⟨c6_sequence_prefix_semantics.2.1 [.vint 1] [.vint 1] [.vnull] "p" [] false
      (by simp),
   c6_sequence_prefix_semantics.1 [.vint 1, .vint 2] [.vint 1] "p" [] false⟩

/-- C7: object comparison — a key of expected whose child path is
excluded is skipped entirely (no failure, no recursion, even when the key
is absent from actual); a non-excluded key absent from actual fails with
`MissingKey` at the child path; and keys present only in actual never
cause failure, so an actual that is expected plus extra keys matches. -/
theorem c7_object_skip_missing_superset :
    (∀ (k : String) (v : Value) (rest as : List (String × Value)) (path : String)
        (ig : List String) (wc : Bool),
      pathMatchesAny (childPath path k) ig wc = true →
      assertPartial (.dict ((k, v) :: rest)) (.dict as) path ig wc =
        assertPartial (.dict rest) (.dict as) path ig wc) ∧
    (∀ (k : String) (v : Value) (rest as : List (String × Value)) (path : String)
        (ig : List String) (wc : Bool),
      pathMatchesAny (childPath path k) ig wc = false →
      lookup k as = none →
      assertPartial (.dict ((k, v) :: rest)) (.dict as) path ig wc =
        .error (.missingKey (childPath path k))) ∧
    (∀ E A : List (String × Value),
      wellFormed (.dict E) = true →
      (∀ kv ∈ E, lookup kv.1 A = some kv.2) →
      assertPartial (.dict E) (.dict A) "" [] false = .ok ()) := by
  refine ⟨?_, ?_, ?_⟩
  · intro k v rest as path ig wc hex
    rw [assertPartial, assertPartial, assertEntries]
    simp only [hex, if_true]
  · intro k v rest as path ig wc hex habs
    rw [assertPartial, assertEntries]
    simp only [hex, Bool.false_eq_true, if_false, habs]
  · intro E A hwf hsub
    rw [assertPartial]
    rw [wellFormed, Bool.and_eq_true] at hwf
    refine assertEntries_ok_of_lookup E A "" [] false fun kv hkv => ?_
    exact ⟨hsub kv hkv,
      fun q => assertPartial_self [] false kv.2
        (wellFormed_of_mem_entries hwf.2 hkv) q⟩

/-- C7 witness: the superset part at a concrete input — actual has the
extra key, expected's binding is found, and the match succeeds. -/
theorem c7_object_skip_missing_superset_witness :
    assertPartial (.dict [("x", .vint 1)])
      (.dict [("x", .vint 1), ("extra", .vnull)]) "" [] false = .ok () := by
  refine c7_object_skip_missing_superset.2.2 [("x", .vint 1)]
    [("x", .vint 1), ("extra", .vnull)] (by
      simp +decide [wellFormed, wfEntries, keysNodup, lookup]) ?_
  intro kv hkv
  simp only [List.mem_singleton] at hkv
  subst hkv
  simp +decide [lookup]

/-- C8: the matcher is a pure function (so any two calls on the same
expected, actual, exclusion list and wildcard flag — with the fixed key
iteration order the association-list model gives — produce the same
outcome), and on failure it reports exactly the FIRST violation of the
depth-first, expected-key-order, increasing-index traversal: its result
is ok when the full violation list is empty and the head of that list
otherwise. -/
theorem c8_fail_fast_reports_first_violation (e : Value) :
    ∀ (a : Value) (path : String) (ig : List String) (wc : Bool),
      assertPartial e a path ig wc =
        match violations e a path ig wc with
        | [] => .ok ()
        | f :: _ => .error f := by
  induction e using Value.inductOn with
  | hnull =>
    intro a path ig wc
    by_cases h1 : pathMatchesAny path ig wc = true
    · simp [assertPartial, violations, h1]
    · by_cases h2 : pyEq .vnull a = true <;>
        simp [assertPartial, violations, h1, h2]
  | hbool b =>
    intro a path ig wc
    by_cases h1 : pathMatchesAny path ig wc = true
    · simp [assertPartial, violations, h1]
    · by_cases h2 : pyEq (.vbool b) a = true <;>
        simp [assertPartial, violations, h1, h2]
  | hint n =>
    intro a path ig wc
    by_cases h1 : pathMatchesAny path ig wc = true
    · simp [assertPartial, violations, h1]
    · by_cases h2 : pyEq (.vint n) a = true <;>
        simp [assertPartial, violations, h1, h2]
  | hstr s =>
    intro a path ig wc
    by_cases h1 : pathMatchesAny path ig wc = true
    · simp [assertPartial, violations, h1]
    · by_cases h2 : pyEq (.vstr s) a = true <;>
        simp [assertPartial, violations, h1, h2]
  | hlist xs ihm =>
    intro a path ig wc
    cases a with
    | list ys =>
      rw [assertPartial, violations]
      by_cases hlen : ys.length < xs.length
      · simp only [hlen, if_true, List.singleton_append]
      · simp only [hlen, Bool.false_eq_true, if_false, List.nil_append]
        exact assertElems_eq_head xs ig wc
          (fun x hx a q => ihm x hx a q ig wc) ys 0 path
    | vnull => simp [assertPartial, violations]
    | vbool b => simp [assertPartial, violations]
    | vint n => simp [assertPartial, violations]
    | vstr s => simp [assertPartial, violations]
    | dict as => simp [assertPartial, violations]
  | hdict es ihm =>
    intro a path ig wc
    cases a with
    | dict as =>
      rw [assertPartial, violations]
      exact assertEntries_eq_head es as path ig wc
        fun kv hkv a q => ihm kv hkv a q ig wc
    | vnull => simp [assertPartial, violations]
    | vbool b => simp [assertPartial, violations]
    | vint n => simp [assertPartial, violations]
    | vstr s => simp [assertPartial, violations]
    | list xs => simp [assertPartial, violations]

/-- C9: reflexivity — every value of the data model (objects have
pairwise-distinct keys, as Python dicts do) partially matches itself with
no exclusions. -/
theorem c9_reflexivity (v : Value) (hwf : wellFormed v = true) :
    assertPartial v v "" [] false = .ok () :=
  assertPartial_self [] false v hwf ""

/-- C9 witness: a concrete value nesting an object, a sequence and every
scalar kind matches itself. -/
theorem c9_reflexivity_witness :
    assertPartial
      (.dict [("a", .list [.vint 1, .vnull, .dict [("b", .vstr "x")]]), ("c", .vbool true)])
      (.dict [("a", .list [.vint 1, .vnull, .dict [("b", .vstr "x")]]), ("c", .vbool true)])
      "" [] false = .ok () :=
  c9_reflexivity
    (.dict [("a", .list [.vint 1, .vnull, .dict [("b", .vstr "x")]]), ("c", .vbool true)])
    (by simp +decide [wellFormed, wfElems, wfEntries, keysNodup, lookup])

/-- C10: passing no exclusion configuration is the empty exclusion set:
`_assert_partial` with `ignore_keys=None` behaves exactly as with
`ignore_keys=[]`, and `_path_matches_any` with `patterns=None` matches no
path. -/
theorem c10_none_is_empty_exclusions :
    (∀ (e a : Value) (path : String) (wc : Bool),
      assertPartialOpt e a path none wc = assertPartialOpt e a path (some []) wc) ∧
    (∀ (path : String) (wc : Bool), pathMatchesAnyOpt path none wc = false) := by
  constructor
  · intro e a path wc
    rfl
  · intro path wc
    rfl

end QaKit
